import Mathlib

/-!
Verification of the rendition-catalog / download core of a video downloader
web application.  The analysis route (`src/app/api/analyze/route.ts`) builds a
deduplicated, ranked list of download options from the raw format
list; the download route dispatches a chosen option to one of three handlers
(pre-muxed relay, audio-only relay, split-stream mux via an ffmpeg subprocess).

The embedding below translates the TypeScript sources directly:
* JavaScript `Map` becomes an association list with insertion-order `set`;
* `string | undefined` fields become `Option String`, with JS truthiness
  (`undefined` and `""` are falsy) modelled explicitly;
* `contentLength` (a numeric string in the source) becomes `Option Nat`
  (present iff the JS value is truthy);
* `Math.round(n / (1024*1024))` on a byte count `n` is the exact rational
  rounding `⌊(2n + 2^20) / 2^21⌋` (half-up, as `Math.round`);
* the stable JavaScript `Array.prototype.sort` with comparator `c` becomes
  `List.insertionSort` with the relation `r a b := c a b ≤ 0` (a stable sort;
  for a total preorder every stable sort produces the same output list).
-/

/-- JS truthiness of a `string | undefined` value: `undefined` and `""` are falsy. -/
def strTruthy : Option String → Bool
  | none => false
  | some s => s ≠ ""

/-- JS `a || b` for a `string | undefined` value `a` and string fallback `b`. -/
def orElseStr (a : Option String) (b : String) : String :=
  match a with
  | none => b
  | some s => if s = "" then b else s

/-- JS string interpolation of a possibly-`undefined` value. -/
def strOf : Option String → String
  | some s => s
  | none => "undefined"

/-- `Math.round(n / (1024*1024))`: convert a byte count to megabytes, rounding
half-up (exact rational arithmetic; float deviations of the source are ignored). -/
def mbRound (n : Nat) : Nat :=
  (2 * n + 1048576) / 2097152

/-- JS `String.prototype.includes`: substring containment. -/
def strIncludes (s pat : String) : Bool :=
  decide (pat.data <:+: s.data)

/-- A raw rendition as reported by the provider library (`ytdl` format object).
Fields restricted to those the analyzed code reads. -/
structure RawFormat where
  itag : Nat
  hasVideo : Bool
  hasAudio : Bool
  container : Option String
  qualityLabel : Option String
  quality : Option String
  bitrate : Option Nat
  audioBitrate : Option Nat
  contentLength : Option Nat
  mimeType : Option String
deriving DecidableEq

/-- Helper for `extractResolution`: decimal value of a digit run. -/
def digitsVal (l : List Char) : Nat :=
  l.foldl (fun acc c => acc * 10 + (c.toNat - 48)) 0

/-- Helper for `extractResolution`: find the first digit run immediately
followed by `'p'` (the JS regex `/(\d+)p/`), returning its value, else 0. -/
def findDigitsP : List Char → Nat
  | [] => 0
  | c :: rest =>
    if c.isDigit then
      match (c :: rest).dropWhile Char.isDigit with
      | 'p' :: _ => digitsVal ((c :: rest).takeWhile Char.isDigit)
      | _ => findDigitsP rest
    else findDigitsP rest

/-- `extractResolution` from the analyze route: `qualityLabel.match(/(\d+)p/)`,
parsed as a decimal integer, `0` when there is no match. -/
def extractResolution (qualityLabel : String) : Nat :=
  findDigitsP qualityLabel.data

/-- `estimateVideoSize` from the analyze route: static MB lookup table keyed by
resolution, defaulting to 10 (`estimates[resolution] || 10`). -/
def estimateVideoSize (resolution : Nat) : Nat :=
  match resolution with
  | 144 => 2
  | 240 => 4
  | 360 => 8
  | 480 => 15
  | 720 => 25
  | 1080 => 50
  | 1440 => 80
  | 2160 => 150
  | _ => 10

/-- `estimateFileSize` from the analyze route. -/
def estimateFileSize (resolution : Nat) (isHighQuality : Bool) : String :=
  let videoSize := estimateVideoSize resolution
  let audioSize := 3
  let totalSize := if isHighQuality then videoSize + audioSize else videoSize
  "~" ++ toString totalSize ++ " MB"

/-- One entry of the options array produced by the analyze route.  JS object
fields that a given construction site does not set are `none`. -/
structure FormatOption where
  quality : String
  format : String
  filesize : String
  itag : Option Nat
  videoItag : Option Nat
  audioItag : Option Nat
  mimeType : Option String
  hasAudio : Bool
  hasVideo : Bool
  isHighQuality : Bool
  resolution : Nat
deriving DecidableEq

/-- The `allFormats` JS `Map`, as an insertion-ordered association list. -/
abbrev FormatMap := List (String × FormatOption)

/-- JS `Map.prototype.has`. -/
def mapHas (m : FormatMap) (k : String) : Bool :=
  m.any (fun e => e.1 = k)

/-- JS `Map.prototype.set`: replace in place if the key is present (keeping its
position), otherwise append at the end. -/
def mapSet : FormatMap → String → FormatOption → FormatMap
  | [], k, v => [(k, v)]
  | e :: rest, k, v => if e.1 = k then (k, v) :: rest else e :: mapSet rest k v

/-- JS `Map.prototype.values` (insertion order). -/
def mapValues (m : FormatMap) : List FormatOption :=
  m.map (fun e => e.2)

/-- Filter of the combined pass: `hasVideo && hasAudio && qualityLabel`. -/
def combinedCandidates (formats : List RawFormat) : List RawFormat :=
  formats.filter (fun f => f.hasVideo && f.hasAudio && strTruthy f.qualityLabel)

/-- Body of the combined-formats `forEach` in the analyze route. -/
def combinedStep (m : FormatMap) (f : RawFormat) : FormatMap :=
  let quality := orElseStr f.qualityLabel (orElseStr f.quality "Unknown")
  let key := quality ++ "_combined"
  let resolution := extractResolution quality
  if mapHas m key then m
  else
    mapSet m key {
      quality := quality
      format := orElseStr f.container "mp4"
      filesize := match f.contentLength with
        | some n => "~" ++ toString (mbRound n) ++ " MB"
        | none => estimateFileSize resolution false
      itag := some f.itag
      videoItag := none
      audioItag := none
      mimeType := f.mimeType
      hasAudio := true
      hasVideo := true
      isHighQuality := false
      resolution := resolution }

/-- The combined-formats pass of the analyze route. -/
def combinedPass (formats : List RawFormat) (m : FormatMap) : FormatMap :=
  (combinedCandidates formats).foldl combinedStep m

/-- Filter of the split-stream candidate selection:
`hasVideo && !hasAudio && container === "mp4" && qualityLabel`. -/
def splitCandidates (formats : List RawFormat) : List RawFormat :=
  formats.filter (fun f =>
    f.hasVideo && !f.hasAudio && decide (f.container = some "mp4") &&
      strTruthy f.qualityLabel)

/-- JS `format.bitrate && format.bitrate > existing.bitrate`: the new bitrate
must be truthy (defined and nonzero), and a comparison against `undefined` is
false. -/
def jsBitrateGT (b e : Option Nat) : Bool :=
  match b, e with
  | some n, some m => decide (n ≠ 0) && decide (m < n)
  | some _, none => false
  | none, _ => false

/-- Body of the `reduce` building `videoOnlyFormats`: keep one entry per
quality label, replacing the incumbent (and moving the entry to the end) when
the bitrate of the new format wins under `jsBitrateGT`. -/
def vofStep (acc : List RawFormat) (f : RawFormat) : List RawFormat :=
  match acc.find? (fun g => decide (g.qualityLabel = f.qualityLabel)) with
  | none => acc.filter (fun g => !decide (g.qualityLabel = f.qualityLabel)) ++ [f]
  | some existing =>
    if jsBitrateGT f.bitrate existing.bitrate then
      acc.filter (fun g => !decide (g.qualityLabel = f.qualityLabel)) ++ [f]
    else acc

/-- `videoOnlyFormats` from the analyze route. -/
def videoOnlyFormats (formats : List RawFormat) : List RawFormat :=
  (splitCandidates formats).foldl vofStep []

/-- Filter of the best-audio selection: `!hasVideo && hasAudio`. -/
def audioCandidates (formats : List RawFormat) : List RawFormat :=
  formats.filter (fun f => !f.hasVideo && f.hasAudio)

/-- Comparator of the best-audio sort, `(b.audioBitrate || 0) - (a.audioBitrate || 0)`,
as the order "`a` sorts no later than `b`". -/
def audioRel (a b : RawFormat) : Prop :=
  b.audioBitrate.getD 0 ≤ a.audioBitrate.getD 0

instance : DecidableRel audioRel :=
  fun _ _ => Nat.decLe _ _

instance : IsTotal RawFormat audioRel :=
  ⟨fun a b => Nat.le_total (b.audioBitrate.getD 0) (a.audioBitrate.getD 0)⟩

instance : IsTrans RawFormat audioRel :=
  ⟨fun _ _ _ hab hbc => Nat.le_trans hbc hab⟩

/-- `bestAudioFormat` from the analyze route: first element of the stable sort
of the audio-only formats by descending `audioBitrate || 0`. -/
def bestAudioFormat (formats : List RawFormat) : Option RawFormat :=
  ((audioCandidates formats).insertionSort audioRel).head?

/-- Video half of the size estimate of a split option: exact content length (in
rounded MB) when present, else the resolution table. -/
def splitVideoSizePart (vf : RawFormat) (resolution : Nat) : Nat :=
  match vf.contentLength with
  | some n => mbRound n
  | none => estimateVideoSize resolution

/-- Audio half of the size estimate of a split option: exact content length (in
rounded MB) when present, else 3 MB. -/
def splitAudioSizePart (ba : RawFormat) : Nat :=
  match ba.contentLength with
  | some n => mbRound n
  | none => 3

/-- Filesize string of the audio-only option. -/
def audioFilesizeStr (ba : RawFormat) : String :=
  match ba.contentLength with
  | some n => "~" ++ toString (mbRound n) ++ " MB"
  | none => "~3 MB"

/-- Body of the high-quality `forEach` in the analyze route (run only when a
best audio format exists). -/
def splitStep (bestAudio : RawFormat) (m : FormatMap) (videoFormat : RawFormat) :
    FormatMap :=
  let quality := strOf videoFormat.qualityLabel
  let resolution := extractResolution quality
  let key := quality ++ "_high"
  let isHighQuality := decide (resolution ≥ 1080)
  if mapHas m key then m
  else
    mapSet m key {
      quality := if isHighQuality then quality ++ " (High Quality)" else quality
      format := "mp4"
      filesize := "~" ++
        toString (splitVideoSizePart videoFormat resolution + splitAudioSizePart bestAudio) ++
        " MB"
      itag := none
      videoItag := some videoFormat.itag
      audioItag := some bestAudio.itag
      mimeType := videoFormat.mimeType
      hasAudio := true
      hasVideo := true
      isHighQuality := isHighQuality
      resolution := resolution }

/-- The high-quality (split-stream) pass of the analyze route. -/
def splitPass (formats : List RawFormat) (m : FormatMap) : FormatMap :=
  match bestAudioFormat formats with
  | none => m
  | some bestAudio => (videoOnlyFormats formats).foldl (splitStep bestAudio) m

/-- The audio-only pass of the analyze route. -/
def audioPass (formats : List RawFormat) (m : FormatMap) : FormatMap :=
  match bestAudioFormat formats with
  | none => m
  | some bestAudio =>
    mapSet m "audio_only" {
      quality := "Audio Only"
      format := "mp3"
      filesize := audioFilesizeStr bestAudio
      itag := some bestAudio.itag
      videoItag := none
      audioItag := none
      mimeType := bestAudio.mimeType
      hasAudio := true
      hasVideo := false
      isHighQuality := false
      resolution := 0 }

/-- The fully built `allFormats` map: combined pass, then split pass, then the
audio-only entry. -/
def allFormats (formats : List RawFormat) : FormatMap :=
  audioPass formats (splitPass formats (combinedPass formats []))

/-- The sort comparator applied to `Array.from(allFormats.values())`. -/
def fmtCompare (a b : FormatOption) : Int :=
  if a.quality = "Audio Only" ∧ b.quality ≠ "Audio Only" then 1
  else if a.quality ≠ "Audio Only" ∧ b.quality = "Audio Only" then -1
  else if a.resolution ≠ b.resolution then (b.resolution : Int) - (a.resolution : Int)
  else if a.isHighQuality ∧ ¬ b.isHighQuality then -1
  else if ¬ a.isHighQuality ∧ b.isHighQuality then 1
  else 0

/-- "Sorts no later than" order induced by `fmtCompare` (JS `sort` is stable,
hence equivalent to any stable sort under this order). -/
def fmtRel (a b : FormatOption) : Prop :=
  fmtCompare a b ≤ 0

instance : DecidableRel fmtRel :=
  fun _ _ => Int.decLe _ _

instance : IsTotal FormatOption fmtRel := by
  refine ⟨fun a b => ?_⟩
  unfold fmtRel fmtCompare
  split_ifs <;> first | omega | tauto

set_option maxHeartbeats 4000000 in
instance : IsTrans FormatOption fmtRel := by
  refine ⟨fun a b c h1 h2 => ?_⟩
  unfold fmtRel fmtCompare at h1 h2 ⊢
  split_ifs at h1 h2 ⊢ <;> first | omega | tauto

/-- The final ordered options list returned by the analyze route. -/
def buildFormats (formats : List RawFormat) : List FormatOption :=
  (mapValues (allFormats formats)).insertionSort fmtRel

/-! ## Download route (dispatcher, relay handlers, mux pipeline) -/

/-- Word characters of the JS `\w` class: `[A-Za-z0-9_]`. -/
def isWordChar (c : Char) : Bool :=
  c.isAlphanum || c = '_'

/-- Whitespace of the JS `\s` class (ASCII part, which is all the analyzed
strings use). -/
def isSpaceChar (c : Char) : Bool :=
  c = ' ' || c = '\t' || c = '\n' || c = '\r' || c = '\x0b' || c = '\x0c'

/-- `.replace(/[^\w\s-]/g, "")`: keep only word characters, whitespace, `-`. -/
def stripNonWord (l : List Char) : List Char :=
  l.filter (fun c => isWordChar c || isSpaceChar c || decide (c = '-'))

/-- `.trim()`: drop leading and trailing whitespace. -/
def trimChars (l : List Char) : List Char :=
  ((l.dropWhile isSpaceChar).reverse.dropWhile isSpaceChar).reverse

/-- Helper for `collapseWs`: the flag records whether the previous character
was whitespace (i.e. the current run already emitted its underscore). -/
def collapseWsAux : Bool → List Char → List Char
  | _, [] => []
  | inSpace, c :: rest =>
    if isSpaceChar c then
      if inSpace then collapseWsAux true rest
      else '_' :: collapseWsAux true rest
    else c :: collapseWsAux false rest

/-- `.replace(/\s+/g, "_")`: collapse every whitespace run into one `_`. -/
def collapseWs (l : List Char) : List Char :=
  collapseWsAux false l

/-- Sanitized filename base recomputed inside each download handler:
`title.replace(/[^\w\s-]/g, "").trim().replace(/\s+/g, "_")` (no length cap). -/
def jsFilenameBase (title : String) : String :=
  ⟨collapseWs (trimChars (stripNonWord title.data))⟩

/-- `sanitizedTitle` computed at the top of the download route: the same
pipeline followed by `.substring(0, 100)`. -/
def sanitizedTitle (title : String) : String :=
  ⟨(collapseWs (trimChars (stripNonWord title.data))).take 100⟩

/-- The rendition option round-tripped by the client (`format` field of the
download request body). -/
structure ChosenFormat where
  quality : String
  format : String
  itag : Option Nat
  videoItag : Option Nat
  audioItag : Option Nat
  isHighQuality : Bool
deriving DecidableEq

/-- A download-route response: either a JSON error with an HTTP status, or a
streamed file with its headers and the ordered chunks of its body. -/
inductive DlResponse where
  | jsonError (status : Nat) (error : String)
  | fileStream (contentType : String) (contentDisposition : String)
      (contentLength : Option Nat) (body : List (List Nat))
deriving DecidableEq

/-- `info.formats.find(f => f.itag === t)`: exact identifier match (a missing
`t` matches nothing, as JS `===` against a number is then false). -/
def findByItag (formats : List RawFormat) (t : Option Nat) : Option RawFormat :=
  formats.find? (fun f => decide (some f.itag = t))

/-- The `Content-Disposition` header built by the handlers. -/
def contentDispositionFor (title ext : String) : String :=
  "attachment; filename=\"" ++ jsFilenameBase title ++ "." ++ ext ++ "\""

/-- `handleStandardDownload`: resolve the single pre-muxed format by `itag`
(404 on a miss) and relay its provider stream chunk-for-chunk.  `stream`
abstracts the elementary byte stream the provider serves for a rendition. -/
def handleStandardDownload (stream : RawFormat → List (List Nat))
    (formats : List RawFormat) (format : ChosenFormat) (title : String) :
    DlResponse :=
  match findByItag formats format.itag with
  | none => .jsonError 404 "Requested format not found"
  | some selectedFormat =>
    .fileStream (if format.format = "mp3" then "audio/mpeg" else "video/mp4")
      (contentDispositionFor title format.format)
      selectedFormat.contentLength
      (stream selectedFormat)

/-- `handleAudioOnlyDownload`: resolve the audio format by `itag` (404 on a
miss) and relay its provider stream chunk-for-chunk; the headers always claim
`audio/mpeg` and an `.mp3` filename, but the body is the source stream
unmodified. -/
def handleAudioOnlyDownload (stream : RawFormat → List (List Nat))
    (formats : List RawFormat) (format : ChosenFormat) (title : String) :
    DlResponse :=
  match findByItag formats format.itag with
  | none => .jsonError 404 "Requested audio format not found"
  | some selectedFormat =>
    .fileStream "audio/mpeg"
      (contentDispositionFor title "mp3")
      selectedFormat.contentLength
      (stream selectedFormat)

/-- `handleHighQualityDownload` (resolution part): resolve video and audio by
`videoItag`/`audioItag` (404 when either misses), then pipe both streams into
the muxing subprocess and relay its stdout.  `muxer` abstracts the ffmpeg
output as a function of the two input streams; no `Content-Length` is set. -/
def handleHighQualityDownload (stream : RawFormat → List (List Nat))
    (muxer : List (List Nat) → List (List Nat) → List (List Nat))
    (formats : List RawFormat) (format : ChosenFormat) (title : String) :
    DlResponse :=
  match findByItag formats format.videoItag, findByItag formats format.audioItag with
  | some videoFormat, some audioFormat =>
    .fileStream "video/mp4" (contentDispositionFor title "mp4") none
      (muxer (stream videoFormat) (stream audioFormat))
  | none, _ => .jsonError 404 "Requested formats not found"
  | some _, none => .jsonError 404 "Requested formats not found"

/-- The dispatcher of the download route: split/mux path when `isHighQuality`, else
audio-only relay when the quality label is the sentinel, else standard relay. -/
def downloadDispatch (stream : RawFormat → List (List Nat))
    (muxer : List (List Nat) → List (List Nat) → List (List Nat))
    (formats : List RawFormat) (format : ChosenFormat) (title : String) :
    DlResponse :=
  if format.isHighQuality then
    handleHighQualityDownload stream muxer formats format title
  else if format.quality = "Audio Only" then
    handleAudioOnlyDownload stream formats format title
  else
    handleStandardDownload stream formats format title

/-! ## Mux pipeline lifecycle (split path of the download route)

`handleHighQualityDownload` wires the pipeline with event callbacks.  The
model below transcribes, per observable event, exactly the callbacks the
source registers (lines 285-324 of the download route):

* `videoStream.pipe(ffmpegProcess.stdio[3])`, `audioStream.pipe(...stdio[4])`:
  plain pipes; **no** `error` listener is attached to either input stream, and
  a Node pipe does not destroy its destination (or anything else) when the
  source errors.
* `ffmpegProcess.stdout.on("data", ...)` enqueues each chunk;
  `ffmpegProcess.stdout.on("end", ...)` closes the controller;
  `ffmpegProcess.on("error", ...)` (spawn failure) errors the controller only;
  `ffmpegProcess.stderr.on("data", ...)` logs; **no** `exit`/`close` listener
  exists, so a failing subprocess exit triggers nothing.
* the `ReadableStream` `cancel()` handler runs `ffmpegProcess.kill()`,
  `videoStream.destroy()`, `audioStream.destroy()`. -/

/-- Observable events in the split/mux pipeline. -/
inductive MuxEvent where
  | stdoutData
  | stdoutEnd
  | stderrData
  | subprocSpawnError
  | subprocExitFailure
  | videoStreamError
  | audioStreamError
  | clientCancel
deriving DecidableEq

/-- Actions a registered callback can perform. -/
inductive MuxAction where
  | enqueueChunk
  | closeController
  | errorController
  | logStderr
  | killSubproc
  | destroyVideoStream
  | destroyAudioStream
deriving DecidableEq

/-- The three linked resources of a split-stream transfer. -/
inductive MuxResource where
  | videoSrc
  | audioSrc
  | subproc
deriving DecidableEq

/-- Per event, the actions of the callbacks the source registers (none, for
events the source does not listen to). -/
def muxRegisteredActions : MuxEvent → List MuxAction
  | .stdoutData => [.enqueueChunk]
  | .stdoutEnd => [.closeController]
  | .stderrData => [.logStderr]
  | .subprocSpawnError => [.errorController]
  | .subprocExitFailure => []
  | .videoStreamError => []
  | .audioStreamError => []
  | .clientCancel => [.killSubproc, .destroyVideoStream, .destroyAudioStream]

/-- Which resource (if any) an action terminates. -/
def terminatesResource : MuxAction → Option MuxResource
  | .killSubproc => some .subproc
  | .destroyVideoStream => some .videoSrc
  | .destroyAudioStream => some .audioSrc
  | _ => none

/-- Resources terminated in response to an event. -/
def muxTerminated (e : MuxEvent) : List MuxResource :=
  (muxRegisteredActions e).filterMap terminatesResource

/-! ## Analyze route error mapping -/

/-- Outcome of the provider metadata fetch (`ytdl.getInfo`): success, or a
thrown error carrying a message. -/
inductive FetchOutcome where
  | ok
  | err (message : String)

/-- HTTP status produced by the analyze route: 400 for a missing or invalid
URL, then—in the `catch` block—404 when the error message contains
"Video unavailable", 403 when it contains "age-restricted", else 500.
(The analyze route, unlike the download route, has no "Sign in to confirm"
branch.)  `validateURL` abstracts `ytdl.validateURL`. -/
def analyzeStatus (url : Option String) (validateURL : String → Bool)
    (outcome : FetchOutcome) : Nat :=
  match url with
  | none => 400
  | some u =>
    if u = "" then 400
    else if !validateURL u then 400
    else match outcome with
      | .ok => 200
      | .err msg =>
        if strIncludes msg "Video unavailable" then 404
        else if strIncludes msg "age-restricted" then 403
        else 500

/-! ## Concrete inputs used by witnesses and counterexamples -/

/-- A pre-muxed 1080p rendition (unusual for a provider, but legal input). -/
def exCombined : RawFormat :=
  ⟨18, true, true, some "mp4", some "1080p", none, some 500, some 96, none, some "video/mp4"⟩

/-- A video-only 1080p rendition. -/
def exVideo1080 : RawFormat :=
  ⟨137, true, false, some "mp4", some "1080p", none, some 4000, none, none, some "video/mp4"⟩

/-- A video-only 720p rendition. -/
def exVideo720 : RawFormat :=
  ⟨136, true, false, some "mp4", some "720p", none, some 2000, none, none, some "video/mp4"⟩

/-- An audio-only rendition. -/
def exAudio : RawFormat :=
  ⟨140, false, true, some "mp4", none, none, none, some 128, none, some "audio/mp4"⟩

/-- A small but representative raw rendition list. -/
def exFormats : List RawFormat :=
  [exCombined, exVideo1080, exVideo720, exAudio]

/-- The option the combined pass builds from `exCombined`. -/
def exCombinedOption : FormatOption :=
  ⟨"1080p", "mp4", "~50 MB", some 18, none, none, some "video/mp4", true, true, false, 1080⟩

/-- The option the split pass builds from `exVideo1080` and `exAudio`. -/
def exSplitOption : FormatOption :=
  ⟨"1080p (High Quality)", "mp4", "~53 MB", none, some 137, some 140, some "video/mp4",
    true, true, true, 1080⟩

/-- The audio-only option built from `exAudio`. -/
def exAudioOption : FormatOption :=
  ⟨"Audio Only", "mp3", "~3 MB", some 140, none, none, some "audio/mp4", true, false, false, 0⟩

/-- A video-only 720p rendition with no bitrate reported. -/
def exVofNoBitrate : RawFormat :=
  ⟨101, true, false, some "mp4", some "720p", none, none, none, none, none⟩

/-- A video-only 720p rendition with bitrate 1000. -/
def exVofBitrate : RawFormat :=
  ⟨102, true, false, some "mp4", some "720p", none, some 1000, none, none, none⟩

/-- An audio-only rendition for the C5 input. -/
def exAudioSmall : RawFormat :=
  ⟨140, false, true, some "mp4", none, none, none, some 128, none, none⟩

/-- Input on which the incumbent with undefined bitrate survives a
higher-bitrate duplicate of the same quality label. -/
def exC5Formats : List RawFormat :=
  [exVofNoBitrate, exVofBitrate, exAudioSmall]

/-- A chosen pre-muxed option for the standard download path. -/
def exChosen720 : ChosenFormat := ⟨"720p", "mp4", some 22, none, none, false⟩

/-- A matching pre-muxed rendition. -/
def exRaw720 : RawFormat :=
  ⟨22, true, true, some "mp4", some "720p", none, some 800, some 96, some 3000000, some "video/mp4"⟩

/-- A chosen audio-only option. -/
def exChosenAudio : ChosenFormat := ⟨"Audio Only", "mp3", some 251, none, none, false⟩

/-- An opus-in-webm audio rendition: its bytes are neither MP3 nor MPEG audio. -/
def exWebmAudio : RawFormat :=
  ⟨251, false, true, some "webm", none, none, none, some 160, none, some "audio/webm"⟩

/-- A chosen split option whose audio identifier does not resolve. -/
def exChosenHigh : ChosenFormat :=
  ⟨"1080p (High Quality)", "mp4", none, some 137, some 999, true⟩

/-- A deterministic stand-in for the provider stream of a rendition. -/
def exStream : RawFormat → List (List Nat) := fun f => [[f.itag, 1, 2], [3, 4]]

/-- A deterministic stand-in for the muxer output. -/
def exMuxer : List (List Nat) → List (List Nat) → List (List Nat) := fun v a => v ++ a

/-- Reading of the split-candidate reduction taken from the words of the spec:
the kept entry per quality label carries the highest bitrate among candidates
with that label (`undefined` sorting lowest, as the spec prescribes for audio
bitrates). -/
def specKeepsHighestBitrate (fs : List RawFormat) : Prop :=
  ∀ kept ∈ videoOnlyFormats fs, ∀ c ∈ splitCandidates fs,
    c.qualityLabel = kept.qualityLabel → c.bitrate.getD 0 ≤ kept.bitrate.getD 0

/-- Keys of the catalog map, in insertion order. -/
def mapKeys (m : FormatMap) : List String :=
  m.map (fun e => e.1)

/-- Per-entry invariant of the built catalog map: the flag/size/shape facts
that the three passes establish for every entry they insert. -/
def EntryInv (fs : List RawFormat) (e : String × FormatOption) : Prop :=
  ((∃ q, e.1 = q ++ "_combined") → e.2.isHighQuality = false) ∧
  ((∃ q, e.1 = q ++ "_high") →
    e.2.isHighQuality = decide (e.2.resolution ≥ 1080) ∧
    ∃ vf ba, bestAudioFormat fs = some ba ∧ vf ∈ videoOnlyFormats fs ∧
      e.1 = strOf vf.qualityLabel ++ "_high" ∧
      e.2.resolution = extractResolution (strOf vf.qualityLabel) ∧
      e.2.filesize =
        "~" ++ toString (splitVideoSizePart vf e.2.resolution + splitAudioSizePart ba) ++ " MB") ∧
  (e.1 = "audio_only" →
    e.2.isHighQuality = false ∧
    ∃ ba, bestAudioFormat fs = some ba ∧ e.2.filesize = audioFilesizeStr ba) ∧
  ((∃ q, e.1 = q ++ "_combined") ∨ (∃ q, e.1 = q ++ "_high") ∨ e.1 = "audio_only")

/-! ## Helper lemmas -/

theorem key_combined_ne_high (a b : String) : a ++ "_combined" ≠ b ++ "_high" := by
  intro h
  have h2 : (a ++ "_combined").data.getLast? = (b ++ "_high").data.getLast? := by rw [h]
  rw [String.data_append, String.data_append, List.getLast?_append, List.getLast?_append] at h2
  have e1 : ("_combined" : String).data.getLast? = some 'd' := by decide
  have e2 : ("_high" : String).data.getLast? = some 'h' := by decide
  rw [e1, e2] at h2
  simp [Option.or] at h2

theorem key_combined_ne_audio (a : String) : a ++ "_combined" ≠ "audio_only" := by
  intro h
  have h2 : (a ++ "_combined").data.getLast? = ("audio_only" : String).data.getLast? := by rw [h]
  rw [String.data_append, List.getLast?_append] at h2
  have e1 : ("_combined" : String).data.getLast? = some 'd' := by decide
  have e2 : ("audio_only" : String).data.getLast? = some 'y' := by decide
  rw [e1, e2] at h2
  simp [Option.or] at h2

theorem key_high_ne_audio (a : String) : a ++ "_high" ≠ "audio_only" := by
  intro h
  have h2 : (a ++ "_high").data.getLast? = ("audio_only" : String).data.getLast? := by rw [h]
  rw [String.data_append, List.getLast?_append] at h2
  have e1 : ("_high" : String).data.getLast? = some 'h' := by decide
  have e2 : ("audio_only" : String).data.getLast? = some 'y' := by decide
  rw [e1, e2] at h2
  simp [Option.or] at h2

theorem mapSet_forall {P : String × FormatOption → Prop} :
    ∀ {m : FormatMap} {k : String} {v : FormatOption},
      (∀ e ∈ m, P e) → P (k, v) → ∀ e ∈ mapSet m k v, P e := by
  intro m
  induction m with
  | nil =>
    intro k v _ hv e he
    simp only [mapSet, List.mem_singleton] at he
    subst he
    exact hv
  | cons hd tl ih =>
    intro k v hm hv e he
    simp only [mapSet] at he
    split at he
    · rcases List.mem_cons.mp he with h | h
      · subst h; exact hv
      · exact hm e (List.mem_cons_of_mem _ h)
    · rcases List.mem_cons.mp he with h | h
      · rw [h]; exact hm hd (List.mem_cons_self _ _)
      · exact ih (fun e' he' => hm e' (List.mem_cons_of_mem _ he')) hv e h

theorem foldl_forall {α : Type} {P : String × FormatOption → Prop}
    (step : FormatMap → α → FormatMap) :
    ∀ (l : List α) (m : FormatMap),
      (∀ m' a, a ∈ l → (∀ e ∈ m', P e) → ∀ e ∈ step m' a, P e) →
      (∀ e ∈ m, P e) → ∀ e ∈ l.foldl step m, P e := by
  intro l
  induction l with
  | nil => intro m _ hm; simpa using hm
  | cons a l ih =>
    intro m hstep hm
    simp only [List.foldl_cons]
    exact ih (step m a) (fun m' b hb => hstep m' b (List.mem_cons_of_mem _ hb))
      (hstep m a (List.mem_cons_self _ _) hm)

theorem mapHas_iff {m : FormatMap} {k : String} : mapHas m k = true ↔ k ∈ mapKeys m := by
  simp [mapHas, mapKeys, List.any_eq_true, List.mem_map]

theorem mapKeys_mapSet (m : FormatMap) (k : String) (v : FormatOption) :
    mapKeys (mapSet m k v) = if mapHas m k then mapKeys m else mapKeys m ++ [k] := by
  induction m with
  | nil => simp [mapSet, mapKeys, mapHas]
  | cons hd tl ih =>
    by_cases h : hd.1 = k
    · simp [mapSet, mapKeys, mapHas, h]
    · have hs : mapSet (hd :: tl) k v = hd :: mapSet tl k v := by simp [mapSet, h]
      have hh : mapHas (hd :: tl) k = mapHas tl k := by simp [mapHas, h]
      rw [hs, hh]
      have hk : mapKeys (hd :: mapSet tl k v) = hd.1 :: mapKeys (mapSet tl k v) := rfl
      rw [hk, ih]
      by_cases h2 : mapHas tl k = true
      · rw [if_pos h2, if_pos h2]; rfl
      · rw [if_neg h2, if_neg h2]; rfl

theorem mapKeys_nodup_mapSet {m : FormatMap} {k : String} {v : FormatOption}
    (h : (mapKeys m).Nodup) : (mapKeys (mapSet m k v)).Nodup := by
  rw [mapKeys_mapSet]
  split
  · exact h
  · next hk =>
    have hbool : ¬ (mapHas m k = true) := by simpa using hk
    have hmem : k ∉ mapKeys m := fun hm => hbool (mapHas_iff.mpr hm)
    simp [List.nodup_append, h, hmem]

theorem combinedStep_inv {fs : List RawFormat} {m : FormatMap} {f : RawFormat}
    (hm : ∀ e ∈ m, EntryInv fs e) : ∀ e ∈ combinedStep m f, EntryInv fs e := by
  intro e he
  simp only [combinedStep] at he
  split at he
  · exact hm e he
  · refine mapSet_forall hm ?_ e he
    refine ⟨fun _ => rfl, ?_, ?_, Or.inl ⟨_, rfl⟩⟩
    · rintro ⟨q, hq⟩
      exact (key_combined_ne_high _ q hq).elim
    · intro hq
      exact (key_combined_ne_audio _ hq).elim

theorem splitStep_inv {fs : List RawFormat} {ba : RawFormat}
    (hba : bestAudioFormat fs = some ba) {m : FormatMap} {vf : RawFormat}
    (hvf : vf ∈ videoOnlyFormats fs)
    (hm : ∀ e ∈ m, EntryInv fs e) : ∀ e ∈ splitStep ba m vf, EntryInv fs e := by
  intro e he
  simp only [splitStep] at he
  split at he
  · exact hm e he
  · refine mapSet_forall hm ?_ e he
    refine ⟨?_, fun _ => ⟨rfl, vf, ba, hba, hvf, rfl, rfl, rfl⟩, ?_, Or.inr (Or.inl ⟨_, rfl⟩)⟩
    · rintro ⟨q, hq⟩
      exact (key_combined_ne_high q _ hq.symm).elim
    · intro hq
      exact (key_high_ne_audio _ hq).elim

theorem combinedPass_inv (fs : List RawFormat) {m : FormatMap}
    (hm : ∀ e ∈ m, EntryInv fs e) : ∀ e ∈ combinedPass fs m, EntryInv fs e :=
  foldl_forall combinedStep _ m (fun _ _ _ hm' => combinedStep_inv hm') hm

theorem splitPass_inv (fs : List RawFormat) {m : FormatMap}
    (hm : ∀ e ∈ m, EntryInv fs e) : ∀ e ∈ splitPass fs m, EntryInv fs e := by
  unfold splitPass
  cases hba : bestAudioFormat fs with
  | none => exact hm
  | some ba =>
    exact foldl_forall (splitStep ba) _ m (fun _ _ ha hm' => splitStep_inv hba ha hm') hm

theorem allFormats_inv (fs : List RawFormat) : ∀ e ∈ allFormats fs, EntryInv fs e := by
  unfold allFormats audioPass
  cases hba : bestAudioFormat fs with
  | none => exact splitPass_inv fs (combinedPass_inv fs (by simp))
  | some ba =>
    refine mapSet_forall (splitPass_inv fs (combinedPass_inv fs (by simp))) ?_
    refine ⟨?_, ?_, fun _ => ⟨rfl, ba, hba, rfl⟩, Or.inr (Or.inr rfl)⟩
    · rintro ⟨q, hq⟩
      exact (key_combined_ne_audio q hq.symm).elim
    · rintro ⟨q, hq⟩
      exact (key_high_ne_audio q hq.symm).elim

theorem combinedStep_keys_nodup {m : FormatMap} {f : RawFormat}
    (h : (mapKeys m).Nodup) : (mapKeys (combinedStep m f)).Nodup := by
  simp only [combinedStep]
  split
  · exact h
  · exact mapKeys_nodup_mapSet h

theorem splitStep_keys_nodup {ba : RawFormat} {m : FormatMap} {vf : RawFormat}
    (h : (mapKeys m).Nodup) : (mapKeys (splitStep ba m vf)).Nodup := by
  simp only [splitStep]
  split
  · exact h
  · exact mapKeys_nodup_mapSet h

theorem foldl_keys_nodup {α : Type} (step : FormatMap → α → FormatMap)
    (hstep : ∀ m a, (mapKeys m).Nodup → (mapKeys (step m a)).Nodup) :
    ∀ (l : List α) (m : FormatMap),
      (mapKeys m).Nodup → (mapKeys (l.foldl step m)).Nodup := by
  intro l
  induction l with
  | nil => intro m hm; exact hm
  | cons a l ih => intro m hm; exact ih (step m a) (hstep m a hm)

theorem allFormats_keys_nodup (fs : List RawFormat) : (mapKeys (allFormats fs)).Nodup := by
  have h1 : (mapKeys (combinedPass fs [])).Nodup :=
    foldl_keys_nodup combinedStep (fun _ _ => combinedStep_keys_nodup) _ [] (by simp [mapKeys])
  have h2 : (mapKeys (splitPass fs (combinedPass fs []))).Nodup := by
    unfold splitPass
    cases bestAudioFormat fs with
    | none => exact h1
    | some ba => exact foldl_keys_nodup (splitStep ba) (fun _ _ => splitStep_keys_nodup) _ _ h1
  unfold allFormats audioPass
  cases bestAudioFormat fs with
  | none => exact h2
  | some ba => exact mapKeys_nodup_mapSet h2

/-! ## Claim theorems -/

/-- C1: in the catalog built from any raw rendition list, every option emitted
on the split-stream path (key `<quality>_high`) has `isHighQuality` equal to
"parsed resolution ≥ 1080" (`resolution` is, by construction, the value of
`extractResolution` on the raw quality label), and every option emitted on the
pre-muxed path (key `<quality>_combined`) has `isHighQuality = false`, with no
condition on its resolution. -/
theorem c1_isHighQuality_split_vs_combined (fs : List RawFormat) (k : String)
    (o : FormatOption) (h : (k, o) ∈ allFormats fs) :
    ((∃ q, k = q ++ "_combined") → o.isHighQuality = false) ∧
    ((∃ q, k = q ++ "_high") → o.isHighQuality = decide (o.resolution ≥ 1080)) := by
  have hinv := allFormats_inv fs (k, o) h
  exact ⟨hinv.1, fun hq => (hinv.2.1 hq).1⟩

/-- C1 witness: on `exFormats`, the pre-muxed 1080p option has
`isHighQuality = false` even though its parsed resolution is 1080. -/
theorem c1_witness :
    exCombinedOption.isHighQuality = false ∧ exCombinedOption.resolution ≥ 1080 :=
  ⟨(c1_isHighQuality_split_vs_combined exFormats "1080p_combined" exCombinedOption
      (by decide)).1 ⟨"1080p", by decide⟩,
    by decide⟩

/-- C2: for every raw rendition list, the catalog map has pairwise distinct
keys (so at most one option per (quality label, path kind) pair and at most
one audio-only option), and every key has one of the three shapes
`<quality>_combined`, `<quality>_high`, `audio_only`. -/
theorem c2_catalog_keys_nodup (fs : List RawFormat) :
    (mapKeys (allFormats fs)).Nodup ∧
    ∀ e ∈ allFormats fs,
      (∃ q, e.1 = q ++ "_combined") ∨ (∃ q, e.1 = q ++ "_high") ∨ e.1 = "audio_only" :=
  ⟨allFormats_keys_nodup fs, fun e he => (allFormats_inv fs e he).2.2.2⟩

/-- C2 witness: the key-shape clause applied to the audio entry of the
catalog built from `exFormats`. -/
theorem c2_witness :
    (∃ q, ("audio_only" : String) = q ++ "_combined") ∨
    (∃ q, ("audio_only" : String) = q ++ "_high") ∨ ("audio_only" : String) = "audio_only" :=
  (c2_catalog_keys_nodup exFormats).2 ("audio_only", exAudioOption) (by decide)

/-- C7: the size-estimation table maps 144/240/360/480/720/1080/1440/2160 to
2/4/8/15/25/50/80/150 MB and every other resolution to 10 MB; every split-path
option has a size string equal to the video part (exact rounded length when present,
else the table estimate at the parsed resolution of the option) plus the audio part
(exact rounded length when present, else 3 MB); the size of the audio-only option
comes from the exact length of the best audio rendition, defaulting to "~3 MB"
when it is unknown. -/
theorem c7_size_estimation :
    (estimateVideoSize 144 = 2 ∧ estimateVideoSize 240 = 4 ∧ estimateVideoSize 360 = 8 ∧
     estimateVideoSize 480 = 15 ∧ estimateVideoSize 720 = 25 ∧ estimateVideoSize 1080 = 50 ∧
     estimateVideoSize 1440 = 80 ∧ estimateVideoSize 2160 = 150) ∧
    (∀ r : Nat, r ∉ ([144, 240, 360, 480, 720, 1080, 1440, 2160] : List Nat) →
      estimateVideoSize r = 10) ∧
    (∀ fs k o, (k, o) ∈ allFormats fs → (∃ q, k = q ++ "_high") →
      ∃ vf ba, bestAudioFormat fs = some ba ∧ vf ∈ videoOnlyFormats fs ∧
        o.resolution = extractResolution (strOf vf.qualityLabel) ∧
        o.filesize =
          "~" ++ toString (splitVideoSizePart vf o.resolution + splitAudioSizePart ba) ++ " MB") ∧
    (∀ fs o, ("audio_only", o) ∈ allFormats fs →
      ∃ ba, bestAudioFormat fs = some ba ∧ o.filesize = audioFilesizeStr ba ∧
        (ba.contentLength = none → o.filesize = "~3 MB")) := by
  refine ⟨⟨rfl, rfl, rfl, rfl, rfl, rfl, rfl, rfl⟩, ?_, ?_, ?_⟩
  · intro r hr
    unfold estimateVideoSize
    split <;> simp_all
  · intro fs k o h hq
    obtain ⟨-, vf, ba, hba, hvf, -, hres, hsize⟩ := (allFormats_inv fs (k, o) h).2.1 hq
    exact ⟨vf, ba, hba, hvf, hres, hsize⟩
  · intro fs o h
    obtain ⟨-, ba, hba, hsize⟩ := (allFormats_inv fs ("audio_only", o) h).2.2.1 rfl
    refine ⟨ba, hba, hsize, fun hn => ?_⟩
    rw [hsize]
    unfold audioFilesizeStr
    rw [hn]

/-- C7 witness: the split 1080p option of `exFormats` (no exact lengths)
gets size "~53 MB" = table(1080) + 3 MB, as computed through the theorem. -/
theorem c7_witness :
    ∃ vf ba, bestAudioFormat exFormats = some ba ∧ vf ∈ videoOnlyFormats exFormats ∧
      exSplitOption.resolution = extractResolution (strOf vf.qualityLabel) ∧
      exSplitOption.filesize =
        "~" ++ toString (splitVideoSizePart vf exSplitOption.resolution + splitAudioSizePart ba) ++
          " MB" :=
  c7_size_estimation.2.2.1 exFormats "1080p_high" exSplitOption (by decide) ⟨"1080p", by decide⟩

/-- C3: the claim requires that an input-stream error, a failing subprocess
exit, and a client cancel each terminate all three linked resources (video
source, audio source, muxing subprocess).  In the code only the `cancel()`
handler does so: no callback at all is registered for an input-stream error or
for a failing subprocess exit, so those events terminate nothing and the
subprocess (or the source streams) leak.  This theorem records the divergence:
cancel terminates all three resources, while the error events terminate none,
refuting the universally quantified cleanup property. -/
theorem c3_mux_cleanup_only_on_cancel :
    (∀ r : MuxResource, r ∈ muxTerminated MuxEvent.clientCancel) ∧
    muxTerminated MuxEvent.videoStreamError = [] ∧
    muxTerminated MuxEvent.audioStreamError = [] ∧
    muxTerminated MuxEvent.subprocExitFailure = [] ∧
    ¬ (∀ e : MuxEvent,
        (e = MuxEvent.videoStreamError ∨ e = MuxEvent.audioStreamError ∨
          e = MuxEvent.subprocExitFailure ∨ e = MuxEvent.clientCancel) →
        ∀ r : MuxResource, r ∈ muxTerminated e) := by
  refine ⟨fun r => ?_, rfl, rfl, rfl, fun h => ?_⟩
  · cases r <;> decide
  · have := h MuxEvent.videoStreamError (Or.inl rfl) MuxResource.subproc
    simp [muxTerminated, muxRegisteredActions] at this

/-- C8 counterexample: a sign-in-gated failure (the provider error
"Sign in to confirm ...") reaches the catch block of the analyze route, whose
only branches match "Video unavailable" and "age-restricted"; the analyze
route therefore answers 500, not the 403 the claim asserts for sign-in-gated
videos.  (The download route does have a "Sign in to confirm" branch; the
analyze route does not.) -/
theorem c8_counterexample :
    analyzeStatus (some "https://www.youtube.com/watch?v=dQw4w9WgXcQ") (fun _ => true)
      (FetchOutcome.err "Sign in to confirm you are not a bot") = 500 ∧
    analyzeStatus (some "https://www.youtube.com/watch?v=dQw4w9WgXcQ") (fun _ => true)
      (FetchOutcome.err "Sign in to confirm you are not a bot") ≠ 403 := by
  constructor <;> decide

/-- C8 amended: for the Analyze operation, a missing or empty URL yields 400,
a URL failing validation yields 400, a failure whose message contains
"Video unavailable" (unavailable/private video) yields 404, a failure whose
message contains "age-restricted" (but not "Video unavailable") yields 403,
and any other failure — including a sign-in-gated one, whose message contains
neither marker — yields 500. -/
theorem c8_amended_status_mapping (validateURL : String → Bool)
    (outcome : FetchOutcome) (u msg : String) :
    analyzeStatus none validateURL outcome = 400 ∧
    analyzeStatus (some "") validateURL outcome = 400 ∧
    (validateURL u = false → analyzeStatus (some u) validateURL outcome = 400) ∧
    (u ≠ "" → validateURL u = true →
      analyzeStatus (some u) validateURL FetchOutcome.ok = 200 ∧
      (strIncludes msg "Video unavailable" = true →
        analyzeStatus (some u) validateURL (FetchOutcome.err msg) = 404) ∧
      (strIncludes msg "Video unavailable" = false →
        strIncludes msg "age-restricted" = true →
        analyzeStatus (some u) validateURL (FetchOutcome.err msg) = 403) ∧
      (strIncludes msg "Video unavailable" = false →
        strIncludes msg "age-restricted" = false →
        analyzeStatus (some u) validateURL (FetchOutcome.err msg) = 500)) := by
  refine ⟨rfl, rfl, ?_, ?_⟩
  · intro hv
    by_cases hu : u = ""
    · subst hu; rfl
    · simp [analyzeStatus, hu, hv]
  · intro hu hv
    refine ⟨by simp [analyzeStatus, hu, hv], ?_, ?_, ?_⟩
    · intro h1; simp [analyzeStatus, hu, hv, h1]
    · intro h1 h2; simp [analyzeStatus, hu, hv, h1, h2]
    · intro h1 h2; simp [analyzeStatus, hu, hv, h1, h2]

/-- C8 witness: a "Video unavailable" failure on a valid URL yields 404,
through the amended theorem. -/
theorem c8_witness :
    analyzeStatus (some "https://youtu.be/x") (fun _ => true)
      (FetchOutcome.err "Video unavailable") = 404 :=
  ((c8_amended_status_mapping (fun _ => true) (FetchOutcome.err "Video unavailable")
      "https://youtu.be/x" "Video unavailable").2.2.2 (by decide) rfl).2.1 (by decide)

/-- C4: the download dispatcher resolves the stream
identifier(s) against the freshly fetched rendition list by exact `itag`
match; on the split path a missing video or audio identifier yields the
404 "Requested formats not found" JSON response, on the audio path a missing
identifier yields 404 "Requested audio format not found", on the standard
path 404 "Requested format not found" — in every case a value, not a crash.
The last conjunct states exactness: a successful lookup returns a rendition
whose `itag` equals the requested identifier. -/
theorem c4_dispatcher_lookup_404 (stream : RawFormat → List (List Nat))
    (muxer : List (List Nat) → List (List Nat) → List (List Nat))
    (fs : List RawFormat) (cf : ChosenFormat) (title : String) :
    (cf.isHighQuality = true →
      (findByItag fs cf.videoItag = none ∨ findByItag fs cf.audioItag = none) →
      downloadDispatch stream muxer fs cf title =
        DlResponse.jsonError 404 "Requested formats not found") ∧
    (cf.isHighQuality = false → cf.quality = "Audio Only" →
      findByItag fs cf.itag = none →
      downloadDispatch stream muxer fs cf title =
        DlResponse.jsonError 404 "Requested audio format not found") ∧
    (cf.isHighQuality = false → cf.quality ≠ "Audio Only" →
      findByItag fs cf.itag = none →
      downloadDispatch stream muxer fs cf title =
        DlResponse.jsonError 404 "Requested format not found") ∧
    (∀ sel, findByItag fs cf.itag = some sel → cf.itag = some sel.itag) := by
  refine ⟨?_, ?_, ?_, ?_⟩
  · intro hq hmiss
    have hd : downloadDispatch stream muxer fs cf title =
        handleHighQualityDownload stream muxer fs cf title := by
      simp [downloadDispatch, hq]
    rw [hd]
    unfold handleHighQualityDownload
    rcases hmiss with h | h
    · rw [h]
    · rw [h]
      cases findByItag fs cf.videoItag <;> rfl
  · intro hq hal hmiss
    simp [downloadDispatch, hq, hal, handleAudioOnlyDownload, hmiss]
  · intro hq hal hmiss
    simp [downloadDispatch, hq, hal, handleStandardDownload, hmiss]
  · intro sel hsel
    unfold findByItag at hsel
    have := List.find?_some hsel
    simp only [decide_eq_true_eq] at this
    exact this.symm

/-- C4 witness: a split option whose audio identifier no longer resolves
yields the 404 response on the concrete input. -/
theorem c4_witness :
    downloadDispatch exStream exMuxer [exRaw720] exChosenHigh "t" =
      DlResponse.jsonError 404 "Requested formats not found" :=
  (c4_dispatcher_lookup_404 exStream exMuxer [exRaw720] exChosenHigh "t").1 rfl
    (Or.inl (by decide))

theorem collapseWsAux_chars :
    ∀ (l : List Char) (b : Bool),
      (∀ c ∈ l, (isWordChar c || isSpaceChar c || decide (c = '-')) = true) →
      ∀ c ∈ collapseWsAux b l, isWordChar c = true ∨ c = '-' := by
  intro l
  induction l with
  | nil => intro b _ c hc; simp [collapseWsAux] at hc
  | cons d rest ih =>
    intro b hl c hc
    have hl' : ∀ c' ∈ rest, (isWordChar c' || isSpaceChar c' || decide (c' = '-')) = true :=
      fun c' hc' => hl c' (List.mem_cons_of_mem _ hc')
    simp only [collapseWsAux] at hc
    by_cases hd : isSpaceChar d = true
    · rw [if_pos hd] at hc
      cases b with
      | true => exact ih true hl' c (by simpa using hc)
      | false =>
        rcases List.mem_cons.mp (by simpa using hc) with h | h
        · rw [h]; left; decide
        · exact ih true hl' c h
    · rw [if_neg hd] at hc
      rcases List.mem_cons.mp hc with h | h
      · have h2 := hl d (List.mem_cons_self _ _)
        simp only [Bool.or_eq_true, decide_eq_true_eq] at h2
        rw [h]
        rcases h2 with (h1 | h1) | h1
        · exact Or.inl h1
        · exact absurd h1 (by simpa using hd)
        · exact Or.inr h1
      · exact ih false hl' c h

theorem sanitize_chars (t : String) :
    ∀ c ∈ collapseWs (trimChars (stripNonWord t.data)), isWordChar c = true ∨ c = '-' := by
  apply collapseWsAux_chars
  intro c hc
  have hc' : c ∈ stripNonWord t.data := by
    unfold trimChars at hc
    have h1 := List.mem_reverse.mp hc
    have h2 := (List.dropWhile_sublist _).subset h1
    have h3 := List.mem_reverse.mp h2
    exact (List.dropWhile_sublist _).subset h3
  simp only [stripNonWord, List.mem_filter] at hc'
  exact hc'.2

/-- C9: filename sanitization strips every character outside word characters,
whitespace and hyphen, trims, and collapses each internal whitespace run into
a single underscore; the metadata-stage `sanitizedTitle` is additionally
capped at 100 characters, while the per-handler filename placed into
`Content-Disposition` is the uncapped sanitization followed by the extension.
On the reference vector, "My Video: Part #1!" becomes "My_Video_Part_1".  The
character clause shows no whitespace and no stripped character survives (every
output character is a word character, which includes the underscores the
collapse step introduces, or a hyphen). -/
theorem c9_filename_sanitization (t : String) (stream : RawFormat → List (List Nat))
    (fs : List RawFormat) (cf : ChosenFormat) (sel : RawFormat)
    (h : findByItag fs cf.itag = some sel) :
    sanitizedTitle "My Video: Part #1!" = "My_Video_Part_1" ∧
    jsFilenameBase "My Video: Part #1!" = "My_Video_Part_1" ∧
    sanitizedTitle "  Hello   world  " = "Hello_world" ∧
    (sanitizedTitle t).length ≤ 100 ∧
    (∀ c ∈ (sanitizedTitle t).data, isWordChar c = true ∨ c = '-') ∧
    (∀ c ∈ (jsFilenameBase t).data, isWordChar c = true ∨ c = '-') ∧
    handleStandardDownload stream fs cf t =
      DlResponse.fileStream (if cf.format = "mp3" then "audio/mpeg" else "video/mp4")
        ("attachment; filename=\"" ++ jsFilenameBase t ++ "." ++ cf.format ++ "\"")
        sel.contentLength (stream sel) := by
  refine ⟨by decide, by decide, by decide, ?_, ?_, ?_, ?_⟩
  · exact List.length_take_le _ _
  · intro c hc
    exact sanitize_chars t c (List.take_subset _ _ hc)
  · exact sanitize_chars t
  · simp only [handleStandardDownload, h, contentDispositionFor]

/-- C9 witness: the standard handler on a concrete title produces exactly the
sanitized attachment filename. -/
theorem c9_witness :
    handleStandardDownload exStream [exRaw720] exChosen720 "My Video: Part #1!" =
      DlResponse.fileStream "video/mp4"
        "attachment; filename=\"My_Video_Part_1.mp4\"" (some 3000000)
        [[22, 1, 2], [3, 4]] := by
  rw [(c9_filename_sanitization "My Video: Part #1!" exStream [exRaw720] exChosen720
    exRaw720 (by decide)).2.2.2.2.2.2]
  decide

/-- C10: in the audio-only download path the response body is exactly the
provider stream of the resolved rendition, forwarded chunk-for-chunk with no
transformation — it does not depend on the container or codec of the rendition —
even though the headers always declare `audio/mpeg` and an `.mp3` filename. -/
theorem c10_audio_passthrough (stream : RawFormat → List (List Nat))
    (fs : List RawFormat) (cf : ChosenFormat) (title : String) (sel : RawFormat)
    (h : findByItag fs cf.itag = some sel) :
    handleAudioOnlyDownload stream fs cf title =
      DlResponse.fileStream "audio/mpeg"
        ("attachment; filename=\"" ++ jsFilenameBase title ++ (".mp3" ++ "\""))
        sel.contentLength (stream sel) := by
  simp only [handleAudioOnlyDownload, h, contentDispositionFor]
  have hm : (".mp3" : String) ++ "\"" = "." ++ "mp3" ++ "\"" := by decide
  rw [hm, ← String.append_assoc, ← String.append_assoc]

/-- C10 witness: the chunks of a webm/opus rendition are forwarded untouched while
the headers claim MPEG audio and an .mp3 filename. -/
theorem c10_witness :
    handleAudioOnlyDownload exStream [exWebmAudio] exChosenAudio "song" =
      DlResponse.fileStream "audio/mpeg" "attachment; filename=\"song.mp3\""
        none [[251, 1, 2], [3, 4]] := by
  rw [c10_audio_passthrough exStream [exWebmAudio] exChosenAudio "song" exWebmAudio (by decide)]
  decide

theorem jsBitrateGT_irrefl (b : Option Nat) : jsBitrateGT b b = false := by
  cases b <;> simp [jsBitrateGT]

theorem jsBitrateGT_trans_false {c e f : Option Nat}
    (hce : jsBitrateGT c e = false) (hfe : jsBitrateGT f e = true) :
    jsBitrateGT c f = false := by
  match c, e, f with
  | none, _, _ => rfl
  | some nc, none, none => rfl
  | some nc, none, some nf => simp [jsBitrateGT] at hfe
  | some nc, some ne, none => rfl
  | some nc, some ne, some nf =>
    simp only [jsBitrateGT, Bool.and_eq_true, decide_eq_true_eq,
      Bool.and_eq_false_iff, decide_eq_false_iff_not] at *
    omega


theorem vofStep_inv (processed acc : List RawFormat) (f : RawFormat)
    (h1 : ∀ g ∈ acc, g ∈ processed)
    (h2 : (acc.map (fun g => g.qualityLabel)).Nodup)
    (h3 : ∀ c ∈ processed, ∃ g ∈ acc, g.qualityLabel = c.qualityLabel)
    (h4 : ∀ kept ∈ acc, ∀ c ∈ processed, c.qualityLabel = kept.qualityLabel →
      jsBitrateGT c.bitrate kept.bitrate = false) :
    (∀ g ∈ vofStep acc f, g ∈ processed ++ [f]) ∧
    ((vofStep acc f).map (fun g => g.qualityLabel)).Nodup ∧
    (∀ c ∈ processed ++ [f], ∃ g ∈ vofStep acc f, g.qualityLabel = c.qualityLabel) ∧
    (∀ kept ∈ vofStep acc f, ∀ c ∈ processed ++ [f],
      c.qualityLabel = kept.qualityLabel → jsBitrateGT c.bitrate kept.bitrate = false) := by
  rcases hfind : acc.find? (fun g => decide (g.qualityLabel = f.qualityLabel)) with _ | ex
  · have hno : ∀ g ∈ acc, g.qualityLabel ≠ f.qualityLabel := by
      intro g hg
      have := List.find?_eq_none.mp hfind g hg
      simpa using this
    have hfe : acc.filter (fun g => !decide (g.qualityLabel = f.qualityLabel)) = acc := by
      apply List.filter_eq_self.mpr
      intro g hg
      simpa using hno g hg
    have hred : vofStep acc f = acc ++ [f] := by
      unfold vofStep
      rw [hfind, hfe]
    rw [hred]
    refine ⟨?_, ?_, ?_, ?_⟩
    · intro g hg
      rcases List.mem_append.mp hg with h | h
      · exact List.mem_append_left _ (h1 g h)
      · exact List.mem_append_right _ h
    · rw [List.map_append, List.nodup_append]
      refine ⟨h2, List.nodup_singleton _, ?_⟩
      intro x hx hy
      simp only [List.map_cons, List.map_nil, List.mem_singleton] at hy
      obtain ⟨g, hg, hgx⟩ := List.mem_map.mp hx
      exact hno g hg (by rw [hgx, hy])
    · intro c hc
      rcases List.mem_append.mp hc with h | h
      · obtain ⟨g, hg, hge⟩ := h3 c h
        exact ⟨g, List.mem_append_left _ hg, hge⟩
      · simp only [List.mem_singleton] at h
        exact ⟨f, List.mem_append_right _ (List.mem_singleton.mpr rfl), by rw [h]⟩
    · intro kept hkept c hc hql
      rcases List.mem_append.mp hkept with hk | hk
      · rcases List.mem_append.mp hc with h | h
        · exact h4 kept hk c h hql
        · simp only [List.mem_singleton] at h
          subst h
          exact absurd hql.symm (hno kept hk)
      · simp only [List.mem_singleton] at hk
        subst hk
        rcases List.mem_append.mp hc with h | h
        · obtain ⟨g, hg, hge⟩ := h3 c h
          exact absurd (hge.trans hql) (hno g hg)
        · simp only [List.mem_singleton] at h
          subst h
          exact jsBitrateGT_irrefl _
  · have hex : ex ∈ acc := List.mem_of_find?_eq_some hfind
    have hexq : ex.qualityLabel = f.qualityLabel := by
      have := List.find?_some hfind
      simpa using this
    by_cases hrep : jsBitrateGT f.bitrate ex.bitrate = true
    · have hred : vofStep acc f =
          acc.filter (fun g => !decide (g.qualityLabel = f.qualityLabel)) ++ [f] := by
        unfold vofStep
        rw [hfind]
        simp [hrep]
      rw [hred]
      have hmemf : ∀ g ∈ acc.filter (fun g => !decide (g.qualityLabel = f.qualityLabel)),
          g ∈ acc ∧ g.qualityLabel ≠ f.qualityLabel := by
        intro g hg
        have := List.mem_filter.mp hg
        exact ⟨this.1, by simpa using this.2⟩
      refine ⟨?_, ?_, ?_, ?_⟩
      · intro g hg
        rcases List.mem_append.mp hg with h | h
        · exact List.mem_append_left _ (h1 g (hmemf g h).1)
        · exact List.mem_append_right _ h
      · rw [List.map_append, List.nodup_append]
        refine ⟨((List.filter_sublist _).map _).nodup h2, List.nodup_singleton _, ?_⟩
        intro x hx hy
        simp only [List.map_cons, List.map_nil, List.mem_singleton] at hy
        obtain ⟨g, hg, hgx⟩ := List.mem_map.mp hx
        exact (hmemf g hg).2 (by rw [hgx, hy])
      · intro c hc
        rcases List.mem_append.mp hc with h | h
        · obtain ⟨g, hg, hge⟩ := h3 c h
          by_cases hgf : g.qualityLabel = f.qualityLabel
          · exact ⟨f, List.mem_append_right _ (List.mem_singleton.mpr rfl),
              by rw [← hgf, hge]⟩
          · refine ⟨g, List.mem_append_left _ ?_, hge⟩
            exact List.mem_filter.mpr ⟨hg, by simpa using hgf⟩
        · simp only [List.mem_singleton] at h
          exact ⟨f, List.mem_append_right _ (List.mem_singleton.mpr rfl), by rw [h]⟩
      · intro kept hkept c hc hql
        rcases List.mem_append.mp hkept with hk | hk
        · rcases List.mem_append.mp hc with h | h
          · exact h4 kept (hmemf kept hk).1 c h hql
          · simp only [List.mem_singleton] at h
            subst h
            exact absurd hql.symm ((hmemf kept hk).2)
        · simp only [List.mem_singleton] at hk
          subst hk
          rcases List.mem_append.mp hc with h | h
          · have hce := h4 ex hex c h (hql.trans hexq.symm)
            exact jsBitrateGT_trans_false hce hrep
          · simp only [List.mem_singleton] at h
            subst h
            exact jsBitrateGT_irrefl _
    · have hred : vofStep acc f = acc := by
        unfold vofStep
        rw [hfind]
        simp [hrep]
      rw [hred]
      refine ⟨fun g hg => List.mem_append_left _ (h1 g hg), h2, ?_, ?_⟩
      · intro c hc
        rcases List.mem_append.mp hc with h | h
        · exact h3 c h
        · simp only [List.mem_singleton] at h
          exact ⟨ex, hex, by rw [h, hexq]⟩
      · intro kept hkept c hc hql
        rcases List.mem_append.mp hc with h | h
        · exact h4 kept hkept c h hql
        · simp only [List.mem_singleton] at h
          subst h
          have hkeptq : kept = ex :=
            List.inj_on_of_nodup_map h2 hkept hex (hql.symm.trans hexq.symm)
          rw [hkeptq]
          exact Bool.eq_false_iff.mpr (fun hh => hrep hh)

theorem vof_foldl_inv :
    ∀ (l processed acc : List RawFormat),
      (∀ g ∈ acc, g ∈ processed) →
      ((acc.map (fun g => g.qualityLabel)).Nodup) →
      (∀ c ∈ processed, ∃ g ∈ acc, g.qualityLabel = c.qualityLabel) →
      (∀ kept ∈ acc, ∀ c ∈ processed, c.qualityLabel = kept.qualityLabel →
        jsBitrateGT c.bitrate kept.bitrate = false) →
      (∀ g ∈ l.foldl vofStep acc, g ∈ processed ++ l) ∧
      (((l.foldl vofStep acc).map (fun g => g.qualityLabel)).Nodup) ∧
      (∀ c ∈ processed ++ l, ∃ g ∈ l.foldl vofStep acc, g.qualityLabel = c.qualityLabel) ∧
      (∀ kept ∈ l.foldl vofStep acc, ∀ c ∈ processed ++ l,
        c.qualityLabel = kept.qualityLabel → jsBitrateGT c.bitrate kept.bitrate = false) := by
  intro l
  induction l with
  | nil =>
    intro processed acc h1 h2 h3 h4
    simpa using ⟨h1, h2, h3, h4⟩
  | cons f l ih =>
    intro processed acc h1 h2 h3 h4
    obtain ⟨s1, s2, s3, s4⟩ := vofStep_inv processed acc f h1 h2 h3 h4
    have hmain := ih (processed ++ [f]) (vofStep acc f) s1 s2 s3 s4
    simpa [List.append_assoc] using hmain

theorem bestAudioFormat_spec (fs : List RawFormat) (b : RawFormat)
    (hb : bestAudioFormat fs = some b) :
    b ∈ audioCandidates fs ∧
    ∀ a ∈ audioCandidates fs, a.audioBitrate.getD 0 ≤ b.audioBitrate.getD 0 := by
  unfold bestAudioFormat at hb
  rcases hs : (audioCandidates fs).insertionSort audioRel with _ | ⟨x, t⟩
  · rw [hs] at hb
    simp at hb
  · rw [hs] at hb
    simp only [List.head?_cons, Option.some.injEq] at hb
    subst hb
    constructor
    · have hx : x ∈ (audioCandidates fs).insertionSort audioRel := by
        rw [hs]
        exact List.mem_cons_self _ _
      exact (List.mem_insertionSort _).mp hx
    · intro a ha
      have ha' : a ∈ x :: t := by
        rw [← hs]
        exact (List.mem_insertionSort _).mpr ha
      rcases List.mem_cons.mp ha' with h | h
      · rw [h]
      · have hsorted := List.sorted_insertionSort audioRel (audioCandidates fs)
        rw [hs] at hsorted
        exact List.rel_of_sorted_cons hsorted a h

theorem bestAudioFormat_none_iff (fs : List RawFormat) :
    bestAudioFormat fs = none ↔ audioCandidates fs = [] := by
  unfold bestAudioFormat
  constructor
  · intro h
    have hnil := List.head?_eq_none_iff.mp h
    have hlen := congrArg List.length hnil
    rw [List.length_insertionSort] at hlen
    exact List.length_eq_zero.mp (by simpa using hlen)
  · intro h
    rw [h]
    rfl

/-- C5 counterexample: on `exC5Formats` the quality label "720p" has two
split-stream candidates, first one with no bitrate reported, then one with
bitrate 1000.  The reduce keeps the first (its JS guard
`format.bitrate && format.bitrate > existing.bitrate` is false when
`existing.bitrate` is `undefined`), so the kept entry does not carry the
highest bitrate for its label, refuting the stated selection rule. -/
theorem c5_counterexample : ¬ specKeepsHighestBitrate exC5Formats := by
  unfold specKeepsHighestBitrate
  decide

/-- C5 as amended: the split-stream candidate set is the renditions with
`hasVideo && !hasAudio && container == "mp4"` and a truthy quality label; the
reduce keeps exactly one entry per distinct quality label, covering every
candidate label, and a kept entry is never beaten under the comparison the code uses
(a later candidate replaces the incumbent only when its bitrate is defined,
nonzero and strictly greater than a defined incumbent bitrate — an incumbent
with undefined bitrate is never replaced, and a candidate with undefined or
zero bitrate never replaces); the best audio rendition is an audio-only
candidate with maximal `audioBitrate || 0` (undefined/zero sorting last); no
audio-only rendition exists iff `bestAudioFormat` is `none`, in which case the
catalog is exactly the combined pass — no split-stream and no audio-only
option is emitted. -/
theorem c5_amended_selection (fs : List RawFormat) :
    (∀ g ∈ videoOnlyFormats fs, g ∈ splitCandidates fs) ∧
    ((videoOnlyFormats fs).map (fun g => g.qualityLabel)).Nodup ∧
    (∀ c ∈ splitCandidates fs, ∃ g ∈ videoOnlyFormats fs, g.qualityLabel = c.qualityLabel) ∧
    (∀ kept ∈ videoOnlyFormats fs, ∀ c ∈ splitCandidates fs,
      c.qualityLabel = kept.qualityLabel → jsBitrateGT c.bitrate kept.bitrate = false) ∧
    (∀ b, bestAudioFormat fs = some b → b ∈ audioCandidates fs ∧
      ∀ a ∈ audioCandidates fs, a.audioBitrate.getD 0 ≤ b.audioBitrate.getD 0) ∧
    (bestAudioFormat fs = none ↔ audioCandidates fs = []) ∧
    (bestAudioFormat fs = none → allFormats fs = combinedPass fs []) := by
  have hmain := vof_foldl_inv (splitCandidates fs) [] [] (by simp) (by simp) (by simp) (by simp)
  simp only [List.nil_append] at hmain
  obtain ⟨s1, s2, s3, s4⟩ := hmain
  refine ⟨s1, s2, s3, s4, fun b hb => bestAudioFormat_spec fs b hb,
    bestAudioFormat_none_iff fs, ?_⟩
  intro hnone
  unfold allFormats audioPass splitPass
  rw [hnone]

/-- C5 witness: on `exC5Formats` the kept 720p entry (undefined bitrate) is
never beaten under the comparison the code uses by the bitrate-1000 candidate, and a
rendition list with no audio-only entry yields exactly the combined pass. -/
theorem c5_witness :
    jsBitrateGT exVofBitrate.bitrate exVofNoBitrate.bitrate = false ∧
    allFormats [exVofNoBitrate] = combinedPass [exVofNoBitrate] [] :=
  ⟨(c5_amended_selection exC5Formats).2.2.2.1 exVofNoBitrate (by decide) exVofBitrate
      (by decide) (by decide),
    (c5_amended_selection [exVofNoBitrate]).2.2.2.2.2.2 (by decide)⟩

set_option maxHeartbeats 1000000 in
theorem fmtRel_audio_last {a b : FormatOption} (h : fmtRel a b) :
    a.quality = "Audio Only" → b.quality = "Audio Only" := by
  unfold fmtRel fmtCompare at h
  split_ifs at h <;> first | omega | tauto

set_option maxHeartbeats 1000000 in
theorem fmtRel_res_desc {a b : FormatOption} (h : fmtRel a b) :
    a.quality ≠ "Audio Only" → b.quality ≠ "Audio Only" → b.resolution ≤ a.resolution := by
  unfold fmtRel fmtCompare at h
  split_ifs at h <;> first | omega | tauto

set_option maxHeartbeats 1000000 in
theorem fmtRel_high_first {a b : FormatOption} (h : fmtRel a b) :
    a.quality ≠ "Audio Only" → b.quality ≠ "Audio Only" → a.resolution = b.resolution →
      b.isHighQuality = true → a.isHighQuality = true := by
  unfold fmtRel fmtCompare at h
  split_ifs at h <;> first | omega | tauto

set_option maxHeartbeats 2000000 in
theorem fmtCompare_zero_rel {x y z : FormatOption} (h1 : fmtCompare x y = 0)
    (h2 : fmtCompare x z = 0) : fmtRel y z := by
  unfold fmtCompare at h1 h2
  unfold fmtRel fmtCompare
  split_ifs at h1 h2 ⊢ <;> first | omega | tauto

/-- C6: the output of the final catalog sort satisfies, for every
raw rendition list, all four ordering clauses of the comparator: any option
with the sentinel quality "Audio Only" (in particular the audio-only option,
which is the only one carrying that quality for ordinary labels) comes after
every other option; options other than the sentinel appear in weakly
descending order of parsed resolution; among those, at equal resolution a
high-quality (split) option precedes a non-high-quality one; and options tied
under the whole comparator appear exactly in insertion order (stability): the
comparator-tie class of any option is the same subsequence before and after
sorting. -/
theorem c6_sort_order (fs : List RawFormat) :
    ((buildFormats fs).Pairwise fun a b =>
      a.quality = "Audio Only" → b.quality = "Audio Only") ∧
    ((buildFormats fs).Pairwise fun a b =>
      a.quality ≠ "Audio Only" → b.quality ≠ "Audio Only" → b.resolution ≤ a.resolution) ∧
    ((buildFormats fs).Pairwise fun a b =>
      a.quality ≠ "Audio Only" → b.quality ≠ "Audio Only" → a.resolution = b.resolution →
        b.isHighQuality = true → a.isHighQuality = true) ∧
    (∀ x : FormatOption,
      (buildFormats fs).filter (fun y => decide (fmtCompare x y = 0)) =
        (mapValues (allFormats fs)).filter (fun y => decide (fmtCompare x y = 0))) := by
  have hsorted : (buildFormats fs).Pairwise fmtRel := by
    unfold buildFormats
    exact List.sorted_insertionSort fmtRel _
  refine ⟨hsorted.imp (fun h => fmtRel_audio_last h),
    hsorted.imp (fun h => fmtRel_res_desc h),
    hsorted.imp (fun h => fmtRel_high_first h), ?_⟩
  intro x
  have hclass : ∀ y ∈ (mapValues (allFormats fs)).filter
      (fun y => decide (fmtCompare x y = 0)),
      ∀ z ∈ (mapValues (allFormats fs)).filter (fun y => decide (fmtCompare x y = 0)),
      fmtRel y z := by
    intro y hy z hz
    have hy' := (List.mem_filter.mp hy).2
    have hz' := (List.mem_filter.mp hz).2
    simp only [decide_eq_true_eq] at hy' hz'
    exact fmtCompare_zero_rel hy' hz'
  have hfsub : List.Sublist
      ((mapValues (allFormats fs)).filter (fun y => decide (fmtCompare x y = 0)))
      (buildFormats fs) := by
    unfold buildFormats
    exact List.sublist_insertionSort (List.pairwise_of_forall_mem_list hclass)
      (List.filter_sublist _)
  have hperm : List.Perm
      ((buildFormats fs).filter (fun y => decide (fmtCompare x y = 0)))
      ((mapValues (allFormats fs)).filter (fun y => decide (fmtCompare x y = 0))) := by
    unfold buildFormats
    exact (List.perm_insertionSort fmtRel _).filter _
  have hidem : ((mapValues (allFormats fs)).filter
        (fun y => decide (fmtCompare x y = 0))).filter
        (fun y => decide (fmtCompare x y = 0)) =
      (mapValues (allFormats fs)).filter (fun y => decide (fmtCompare x y = 0)) :=
    List.filter_eq_self.mpr (fun a ha => (List.mem_filter.mp ha).2)
  have hsub2 := hfsub.filter (fun y => decide (fmtCompare x y = 0))
  rw [hidem] at hsub2
  exact (hsub2.eq_of_length hperm.length_eq.symm).symm

/-- C6 witness: the audio-last clause instantiated on the catalog built from
`exFormats`. -/
theorem c6_witness :
    (buildFormats exFormats).Pairwise
      (fun a b => a.quality = "Audio Only" → b.quality = "Audio Only") :=
  (c6_sort_order exFormats).1

/-- C3 witness: the cancel handler terminates each of the three resources. -/
theorem c3_witness :
    MuxResource.subproc ∈ muxTerminated MuxEvent.clientCancel ∧
    MuxResource.videoSrc ∈ muxTerminated MuxEvent.clientCancel ∧
    MuxResource.audioSrc ∈ muxTerminated MuxEvent.clientCancel :=
  ⟨c3_mux_cleanup_only_on_cancel.1 MuxResource.subproc,
    c3_mux_cleanup_only_on_cancel.1 MuxResource.videoSrc,
    c3_mux_cleanup_only_on_cancel.1 MuxResource.audioSrc⟩
